import Mathlib

/-!
# Tic Tac Toe frontend: shallow embedding of the game core

Embedding of `src/tic_tac_toe_frontend/src/App.js`: the rules engine
(`calculateWinner`, `isDraw`), the session state held by the `App` component
(`board`, `xIsNext`, `winner`, `winningLine`, `draw`, `mode`), the move handler
`handlePlay`, the win/draw detection effect, the reset and mode-change
operations, and the computer heuristic `cpuMove`.

JavaScript conventions mirrored here:
* a board cell is `null`, `"X"` or `"O"`; we use `Option Marker` with `none`
  for `null`;
* an out-of-range array read (`board[i]` with `i ≥ length`) yields `undefined`,
  which is falsy exactly like `null`, so reads are modelled by `List.getD`
  with default `none`;
* an out-of-range array write `squares[i] = v` with `i ≥ length` extends the
  array to length `i + 1` (intervening holes, which never arise in any fact
  proved below, are modelled as empty cells); this is `jsSet`;
* `Math.floor(Math.random() * len)` is an arbitrary value in `[0, len)`; the
  heuristic therefore takes an extra `rnd : Nat` parameter and picks index
  `rnd % len`, which ranges over all of `[0, len)` as `rnd` varies.
-/

namespace TicTacToe

/-- A mark on the board: the strings `"X"` and `"O"` of the source. -/
inductive Marker where
  | X : Marker
  | O : Marker
deriving DecidableEq, Repr

/-- One board cell: `null`, `"X"` or `"O"` in the source. -/
abbrev Cell := Option Marker

/-- The game mode strings `"2p"` and `"cpu"` of the source. -/
inductive Mode where
  | twoPlayer : Mode
  | vsComputer : Mode
deriving DecidableEq, Repr

/-- `EMPTY_BOARD = Array(9).fill(null)`. -/
def EMPTY_BOARD : List Cell := List.replicate 9 none

/-- JavaScript array read `b[i]`: `undefined` (out of range) and `null` are
both modelled as `none`. -/
def jsGet (b : List Cell) (i : Nat) : Cell := b.getD i none

/-- JavaScript array write `b[i] = v`: in-range writes update the element,
a write at `i ≥ b.length` extends the array to length `i + 1` (holes, never
reached below, modelled as `none`). -/
def jsSet (b : List Cell) (i : Nat) (v : Cell) : List Cell :=
  if i < b.length then b.set i v
  else b ++ List.replicate (i - b.length) none ++ [v]

/-- The fixed list of 8 lines of `calculateWinner`: 3 rows, 3 columns,
2 diagonals, in source order. -/
def lines : List (Nat × Nat × Nat) :=
  [(0, 1, 2), (3, 4, 5), (6, 7, 8), (0, 3, 6), (1, 4, 7), (2, 5, 8),
   (0, 4, 8), (2, 4, 6)]

/-- One iteration of the loop body of `calculateWinner`:
`squares[a] && squares[a] === squares[b] && squares[a] === squares[c]`. -/
def winnerOfLine (b : List Cell) (l : Nat × Nat × Nat) : Option Marker :=
  match jsGet b l.1 with
  | none => none
  | some m =>
      if jsGet b l.2.1 = some m ∧ jsGet b l.2.2 = some m then some m else none

/-- The loop of `calculateWinner`: first line whose three cells hold the same
non-empty marker, with that marker. -/
def scanLines (b : List Cell) : List (Nat × Nat × Nat) → Option (Marker × List Nat)
  | [] => none
  | l :: rest =>
      match winnerOfLine b l with
      | some m => some (m, [l.1, l.2.1, l.2.2])
      | none => scanLines b rest

/-- `calculateWinner(squares)`: returns `[winner, winningLineIndexes]` or
`[null, []]`. -/
def calculateWinner (b : List Cell) : Option Marker × List Nat :=
  match scanLines b lines with
  | some (m, ln) => (some m, ln)
  | none => (none, [])

/-- `isDraw(squares) = squares.every(x => x !== null)`. -/
def isDraw (b : List Cell) : Bool := b.all (fun c => c.isSome)

/-- The spec data type `GameResult`: `InProgress`, `Win(marker, line)`, `Draw`. -/
inductive GameResult where
  | inProgress : GameResult
  | win : Marker → List Nat → GameResult
  | draw : GameResult
deriving DecidableEq, Repr

/-- The rules-engine evaluation, as the detection effect combines
`calculateWinner` and `isDraw`: a winning line gives `Win`, else a full board
gives `Draw`, else `InProgress`. -/
def evaluate (b : List Cell) : GameResult :=
  match calculateWinner b with
  | (some m, ln) => GameResult.win m ln
  | (none, _) => if isDraw b then GameResult.draw else GameResult.inProgress

/-- The session state held by the `App` component. -/
structure Session where
  mode : Mode
  board : List Cell
  xIsNext : Bool
  winner : Option Marker
  winningLine : List Nat
  draw : Bool
deriving DecidableEq, Repr

/-- The marker that moves next: `xIsNext ? "X" : "O"`. -/
def currentMarker (s : Session) : Marker :=
  if s.xIsNext then Marker.X else Marker.O

/-- The rejection guard of `handlePlay`:
`if (board[index] || winner || draw) return;`. -/
def rejected (s : Session) (index : Nat) : Bool :=
  (jsGet s.board index).isSome || s.winner.isSome || s.draw

/-- `handlePlay(index)`: on the guard, no state change; otherwise copy the
board, place the current marker at `index`, store the board and flip
`xIsNext` (unconditionally). -/
def handlePlay (s : Session) (index : Nat) : Session :=
  if rejected s index then s
  else
    { s with
      board := jsSet s.board index (some (currentMarker s)),
      xIsNext := !s.xIsNext }

/-- The win/draw detection effect (`useEffect` on `[board]`): recompute
`winner`, `winningLine`, `draw` from the current board. In the draw branch the
source leaves `winningLine` untouched. -/
def detectEffect (s : Session) : Session :=
  match calculateWinner s.board with
  | (some w, ln) => { s with winner := some w, winningLine := ln, draw := false }
  | (none, _) =>
      if isDraw s.board then { s with winner := none, draw := true }
      else { s with winner := none, winningLine := [], draw := false }

/-- The observable `play` transition: `handlePlay` followed by the detection
effect, which re-runs exactly when the board changed, i.e. when the move was
accepted; a rejected `handlePlay` changes no state, so no effect re-runs. -/
def play (s : Session) (index : Nat) : Session :=
  if rejected s index then s else detectEffect (handlePlay s index)

/-- `resetGame()`: empty board, X to move, no winner, no winning line, no
draw; `mode` is not touched. -/
def resetGame (s : Session) : Session :=
  { s with
    board := EMPTY_BOARD, xIsNext := true, winner := none,
    winningLine := [], draw := false }

/-- The spec operation `reset(mode)`: `resetGame` with the mode set to the
given value. -/
def resetWithMode (s : Session) (m : Mode) : Session :=
  { resetGame s with mode := m }

/-- `setMode(m)` as observable on the session: the `useEffect` on `[mode]`
runs `resetGame` when the mode value changed; a setter call with the current
value does not change the dependency, so nothing happens. -/
def setModeOp (s : Session) (m : Mode) : Session :=
  if m = s.mode then s else resetWithMode s m

/-- `const opponent = player === "X" ? "O" : "X"`. -/
def opponent : Marker → Marker
  | Marker.X => Marker.O
  | Marker.O => Marker.X

/-- The win/block loop body of `cpuMove`: cell `i` is empty and marking it
with `m` makes `calculateWinner` report `m`. -/
def winChk (b : List Cell) (m : Marker) (i : Nat) : Bool :=
  (jsGet b i).isNone && decide ((calculateWinner (jsSet b i (some m))).fst = some m)

/-- `cpuMove(squares, player)`: try to win, else block, else center, else a
random empty corner, else a random empty cell, else `null`. The two `for`
loops over `i = 0..8` are `List.find?` over `List.range 9`; the random picks
take `rnd % length`. -/
def cpuMove (squares : List Cell) (player : Marker) (rnd : Nat) : Option Nat :=
  let opp := opponent player
  match (List.range 9).find? (winChk squares player) with
  | some i => some i
  | none =>
    match (List.range 9).find? (winChk squares opp) with
    | some i => some i
    | none =>
      if (jsGet squares 4).isNone then some 4
      else
        let corners := [0, 2, 6, 8].filter (fun i => (jsGet squares i).isNone)
        if corners.length ≠ 0 then some (corners.getD (rnd % corners.length) 0)
        else
          let empties :=
            (List.range squares.length).filter (fun i => (jsGet squares i).isNone)
          if empties.length ≠ 0 then some (empties.getD (rnd % empties.length) 0)
          else none

/-- The closure captured by the `setTimeout` callback of the computer-move
effect: the render-time values of `board`, `xIsNext`, `winner`, `draw` that
`handlePlay` closes over, plus the chosen move. -/
structure Pending where
  board : List Cell
  xIsNext : Bool
  winner : Option Marker
  draw : Bool
  move : Nat
deriving DecidableEq, Repr

/-- The computer-move effect (`useEffect` on `[xIsNext, mode, winner, draw,
board]`): in cpu mode, game not over, O to move, schedule `handlePlay` of the
chosen move after 400 ms; the effect installs no cleanup, so the timeout is
never cancelled. -/
def scheduleCpuMove (s : Session) (rnd : Nat) : Option Pending :=
  if s.mode ≠ Mode.vsComputer || s.winner.isSome || s.draw then none
  else if !s.xIsNext then
    match cpuMove s.board Marker.O rnd with
    | some mv => some ⟨s.board, s.xIsNext, s.winner, s.draw, mv⟩
    | none => none
  else none

/-- Firing a scheduled callback against the current session: the callback
runs `handlePlay(move)` with its captured (possibly stale) values — the guard
and the placed mark read the closure — while the `setBoard` / `setXIsNext`
setters replace the current state; the detection effect then re-runs on the
stored board. -/
def fireStale (current : Session) (p : Pending) : Session :=
  if (jsGet p.board p.move).isSome || p.winner.isSome || p.draw then current
  else
    detectEffect
      { current with
        board := jsSet p.board p.move (some (if p.xIsNext then Marker.X else Marker.O)),
        xIsNext := !p.xIsNext }

/-- A fresh two-player session, the component's initial state. -/
def freshSession (m : Mode) : Session :=
  { mode := m, board := EMPTY_BOARD, xIsNext := true, winner := none,
    winningLine := [], draw := false }

/-- The `GameResult` encoded by the session fields `winner`, `winningLine`,
`draw`. -/
def sessionResult (s : Session) : GameResult :=
  match s.winner with
  | some m => GameResult.win m s.winningLine
  | none => if s.draw then GameResult.draw else GameResult.inProgress

/-- All three cells of a line hold marker `m` (cells read as JavaScript
does). -/
def lineFilled (b : List Cell) (l : Nat × Nat × Nat) (m : Marker) : Prop :=
  jsGet b l.1 = some m ∧ jsGet b l.2.1 = some m ∧ jsGet b l.2.2 = some m

instance (b : List Cell) (l : Nat × Nat × Nat) (m : Marker) :
    Decidable (lineFilled b l m) := by
  unfold lineFilled; infer_instance

/-- Cell `i` of the 9-cell board is empty and marking it with `m` yields a
win for `m` per the rules engine. -/
def completesWin (b : List Cell) (i : Nat) (m : Marker) : Prop :=
  i < 9 ∧ jsGet b i = none ∧ (calculateWinner (jsSet b i (some m))).fst = some m

instance (b : List Cell) (i : Nat) (m : Marker) :
    Decidable (completesWin b i m) := by
  unfold completesWin; infer_instance

/-- Folding `play` over a list of indices: a sequence of clicks. -/
def playSeq (s : Session) (moves : List Nat) : Session := moves.foldl play s

/-! ## Helper lemmas -/

lemma detectEffect_board (s : Session) : (detectEffect s).board = s.board := by
  unfold detectEffect
  split
  · rfl
  · split <;> rfl

lemma detectEffect_xIsNext (s : Session) : (detectEffect s).xIsNext = s.xIsNext := by
  unfold detectEffect
  split
  · rfl
  · split <;> rfl

lemma sessionResult_detectEffect (s : Session) :
    sessionResult (detectEffect s) = evaluate s.board := by
  unfold detectEffect evaluate
  rcases h : calculateWinner s.board with ⟨w, ln⟩
  cases w with
  | none =>
      by_cases hd : isDraw s.board <;> simp [sessionResult, h, hd]
  | some m => simp [sessionResult, h]

lemma winnerOfLine_eq_some_iff (b : List Cell) (l : Nat × Nat × Nat)
    (m : Marker) : winnerOfLine b l = some m ↔ lineFilled b l m := by
  unfold winnerOfLine lineFilled
  rcases h : jsGet b l.1 with _ | m₁
  · simp [h]
  · by_cases hc : jsGet b l.2.1 = some m₁ ∧ jsGet b l.2.2 = some m₁
    · rcases hc with ⟨hc1, hc2⟩
      simp [h, hc1, hc2]
    · simp [h, hc]
      rintro h1 h2 h3
      exact hc ⟨by rw [h2, h1], by rw [h3, h1]⟩

lemma winnerOfLine_eq_none_iff (b : List Cell) (l : Nat × Nat × Nat) :
    winnerOfLine b l = none ↔ ∀ m, ¬ lineFilled b l m := by
  constructor
  · intro h m hm
    rw [← winnerOfLine_eq_some_iff] at hm
    rw [h] at hm
    exact Option.noConfusion hm
  · intro hall
    rcases h : winnerOfLine b l with _ | m
    · rfl
    · exact absurd ((winnerOfLine_eq_some_iff b l m).mp h) (hall m)

lemma scanLines_eq_none_iff (b : List Cell) (L : List (Nat × Nat × Nat)) :
    scanLines b L = none ↔ ∀ l ∈ L, winnerOfLine b l = none := by
  induction L with
  | nil => simp [scanLines]
  | cons l rest ih =>
      rw [scanLines]
      rcases h : winnerOfLine b l with _ | m
      · simp [h, ih]
      · simp [h]

lemma scanLines_eq_some_split (b : List Cell) :
    ∀ (L : List (Nat × Nat × Nat)) (m : Marker) (ln : List Nat),
      scanLines b L = some (m, ln) →
      ∃ pre l post, L = pre ++ l :: post ∧ winnerOfLine b l = some m ∧
        ln = [l.1, l.2.1, l.2.2] ∧ ∀ x ∈ pre, winnerOfLine b x = none := by
  intro L
  induction L with
  | nil => intro m ln h; exact absurd h (by simp [scanLines])
  | cons l rest ih =>
      intro m ln h
      rw [scanLines] at h
      rcases hw : winnerOfLine b l with _ | m₁
      · rw [hw] at h
        obtain ⟨pre, l₀, post, hL, hwin, hln, hpre⟩ := ih m ln h
        refine ⟨l :: pre, l₀, post, by rw [hL]; rfl, hwin, hln, ?_⟩
        intro x hx
        rcases List.mem_cons.mp hx with rfl | hx
        · exact hw
        · exact hpre x hx
      · rw [hw] at h
        obtain ⟨rfl, rfl⟩ : m₁ = m ∧ [l.1, l.2.1, l.2.2] = ln := by
          have := Option.some_inj.mp h
          exact ⟨congrArg Prod.fst this, congrArg Prod.snd this⟩
        exact ⟨[], l, rest, rfl, hw, rfl, by simp⟩

/-! ## Claim theorems -/

/-- C2 (confirmed). On a 9-cell board: if some of the 8 fixed lines is fully
held by one marker, `evaluate` returns `Win` of the first such line in the
fixed order (rows, columns, diagonals) and its marker; with no winning line it
returns `Draw` when all cells are occupied and `InProgress` otherwise; in
particular the empty board evaluates to `InProgress`. -/
theorem evaluate_characterization (b : List Cell) (_hb : b.length = 9) :
    ((∃ l ∈ lines, ∃ m, lineFilled b l m) →
      ∃ pre l post m, lines = pre ++ l :: post ∧ lineFilled b l m ∧
        (∀ x ∈ pre, ∀ m₂, ¬ lineFilled b x m₂) ∧
        evaluate b = GameResult.win m [l.1, l.2.1, l.2.2]) ∧
    ((∀ l ∈ lines, ∀ m, ¬ lineFilled b l m) →
      ((∀ c ∈ b, c ≠ none) → evaluate b = GameResult.draw) ∧
      ((∃ c ∈ b, c = none) → evaluate b = GameResult.inProgress)) ∧
    evaluate EMPTY_BOARD = GameResult.inProgress := by
  refine ⟨?_, ?_, by decide⟩
  · rintro ⟨l, hl, m, hm⟩
    rcases hs : scanLines b lines with _ | ⟨m₀, ln⟩
    · exfalso
      have hnone := (scanLines_eq_none_iff b lines).mp hs l hl
      rw [winnerOfLine_eq_none_iff] at hnone
      exact hnone m hm
    · obtain ⟨pre, l₀, post, hL, hwin, hln, hpre⟩ :=
        scanLines_eq_some_split b lines m₀ ln hs
      refine ⟨pre, l₀, post, m₀, hL,
        (winnerOfLine_eq_some_iff b l₀ m₀).mp hwin, ?_, ?_⟩
      · intro x hx m₂
        rw [← winnerOfLine_eq_some_iff, hpre x hx]
        exact fun hc => Option.noConfusion hc
      · simp [evaluate, calculateWinner, hs, hln]
  · intro hno
    have hnone : scanLines b lines = none := by
      rw [scanLines_eq_none_iff]
      intro l hl
      rw [winnerOfLine_eq_none_iff]
      exact hno l hl
    constructor
    · intro hfull
      have hd : isDraw b = true := by
        rw [isDraw, List.all_eq_true]
        intro c hc
        rcases c with _ | m
        · exact absurd rfl (hfull none hc)
        · rfl
      simp [evaluate, calculateWinner, hnone, hd]
    · rintro ⟨c, hc, rfl⟩
      have hd : isDraw b = false := by
        rcases hda : isDraw b with _ | _
        · rfl
        · rw [isDraw, List.all_eq_true] at hda
          exact absurd (hda none hc) (by simp)
      simp [evaluate, calculateWinner, hnone, hd]

theorem evaluate_characterization_witness :
    evaluate EMPTY_BOARD = GameResult.inProgress :=
  (evaluate_characterization EMPTY_BOARD (by decide)).2.2

lemma find?_range_eq_some (p : Nat → Bool) :
    ∀ (n i : Nat), ((List.range n).find? p = some i ↔
      i < n ∧ p i = true ∧ ∀ j, j < i → p j = false) := by
  intro n
  induction n with
  | zero => intro i; simp
  | succ n ih =>
      intro i
      rw [List.range_succ, List.find?_append]
      rcases h : (List.range n).find? p with _ | j
      · have hall : ∀ j, j < n → p j = false := by
          intro j hj
          simpa using List.find?_eq_none.mp h j (List.mem_range.mpr hj)
        rcases hpn : p n with _ | _
        · rw [List.find?_cons_of_neg _ (by simp [hpn]), List.find?_nil]
          simp only [Option.none_or]
          constructor
          · intro hc
            exact absurd hc (by simp)
          · rintro ⟨hin, hpi, hmin⟩
            rcases Nat.lt_succ_iff_lt_or_eq.mp hin with hlt | rfl
            · rw [hall i hlt] at hpi
              exact absurd hpi (by simp)
            · rw [hpn] at hpi
              exact absurd hpi (by simp)
        · rw [List.find?_cons_of_pos _ hpn]
          simp only [Option.none_or, Option.some_inj]
          constructor
          · rintro rfl
            exact ⟨Nat.lt_succ_self n, hpn, hall⟩
          · rintro ⟨hin, hpi, hmin⟩
            rcases Nat.lt_succ_iff_lt_or_eq.mp hin with hlt | rfl
            · rw [hall i hlt] at hpi
              exact absurd hpi (by simp)
            · rfl
      · obtain ⟨hjn, hpj, hminj⟩ := (ih j).mp h
        simp only [Option.or_some, Option.some_inj]
        constructor
        · rintro rfl
          exact ⟨Nat.lt_succ_of_lt hjn, hpj, hminj⟩
        · rintro ⟨hin, hpi, hmin⟩
          rcases Nat.lt_trichotomy j i with hlt | rfl | hgt
          · rw [hmin j hlt] at hpj
            exact absurd hpj (by simp)
          · rfl
          · rw [hminj i hgt] at hpi
            exact absurd hpi (by simp)

lemma winChk_iff (b : List Cell) (m : Marker) (i : Nat) :
    winChk b m i = true ↔
      jsGet b i = none ∧ (calculateWinner (jsSet b i (some m))).fst = some m := by
  unfold winChk
  simp [Option.isNone_iff_eq_none]

lemma completesWin_iff (b : List Cell) (i : Nat) (m : Marker) :
    completesWin b i m ↔ i < 9 ∧ winChk b m i = true := by
  rw [winChk_iff]
  unfold completesWin
  tauto

lemma getD_mem_of_length_pos {α : Type} (l : List α) (k : Nat) (d : α)
    (h : k < l.length) : l.getD k d ∈ l := by
  rw [List.getD_eq_getElem?_getD, List.getElem?_eq_getElem h, Option.getD_some]
  exact List.getElem_mem h

lemma find?_winChk_eq_none (b : List Cell) (m : Marker)
    (h : ∀ i, i < 9 → ¬ completesWin b i m) :
    (List.range 9).find? (winChk b m) = none := by
  rw [List.find?_eq_none]
  intro x hx hc
  exact h x (List.mem_range.mp hx)
    ((completesWin_iff b x m).mpr ⟨List.mem_range.mp hx, hc⟩)

lemma find?_winChk_eq_some (b : List Cell) (m : Marker) (i : Nat)
    (h : completesWin b i m) :
    ∃ j, (List.range 9).find? (winChk b m) = some j ∧ completesWin b j m ∧
      ∀ k, k < j → ¬ completesWin b k m := by
  obtain ⟨hi9, hwc⟩ := (completesWin_iff b i m).mp h
  rcases hf : (List.range 9).find? (winChk b m) with _ | j
  · exact absurd hwc
      (by simpa using List.find?_eq_none.mp hf i (List.mem_range.mpr hi9))
  · obtain ⟨hj9, hpj, hmin⟩ := (find?_range_eq_some (winChk b m) 9 j).mp hf
    refine ⟨j, rfl, (completesWin_iff b j m).mpr ⟨hj9, hpj⟩, ?_⟩
    intro k hk hck
    obtain ⟨_, hwk⟩ := (completesWin_iff b k m).mp hck
    rw [hmin k hk] at hwk
    exact absurd hwk (by simp)

/-- Whenever the 9-cell board has an empty cell, `cpuMove` returns some
in-range empty cell (whichever tier fires). -/
lemma cpuMove_finds_empty (b : List Cell) (hb : b.length = 9) (m : Marker)
    (r : Nat) (i : Nat) (hi : i < 9) (he : jsGet b i = none) :
    ∃ j, j < 9 ∧ jsGet b j = none ∧ cpuMove b m r = some j := by
  rcases hw : (List.range 9).find? (winChk b m) with _ | j
  · rcases hbk : (List.range 9).find? (winChk b (opponent m)) with _ | j
    · by_cases h4 : (jsGet b 4).isNone = true
      · exact ⟨4, by norm_num, Option.isNone_iff_eq_none.mp h4,
          by simp [cpuMove, hw, hbk, h4]⟩
      · have h4f : (jsGet b 4).isNone = false := by
          rcases hv : (jsGet b 4).isNone with _ | _
          · rfl
          · exact absurd hv h4
        by_cases hcnil :
            [0, 2, 6, 8].filter (fun k => (jsGet b k).isNone) = []
        · have hiE : i ∈ (List.range b.length).filter
              (fun k => (jsGet b k).isNone) :=
            List.mem_filter.mpr
              ⟨List.mem_range.mpr (by omega), by simp [he]⟩
          have hlen : ((List.range b.length).filter
              (fun k => (jsGet b k).isNone)).length ≠ 0 := by
            rw [Ne, List.length_eq_zero]
            exact List.ne_nil_of_mem hiE
          have hmem := getD_mem_of_length_pos
            ((List.range b.length).filter (fun k => (jsGet b k).isNone))
            (r % ((List.range b.length).filter
              (fun k => (jsGet b k).isNone)).length) 0
            (Nat.mod_lt _ (Nat.pos_of_ne_zero hlen))
          obtain ⟨hrange, hempty⟩ := List.mem_filter.mp hmem
          refine ⟨_, by have := List.mem_range.mp hrange; omega,
            Option.isNone_iff_eq_none.mp hempty, ?_⟩
          simp [cpuMove, hw, hbk, h4f, hcnil, hlen]
        · have hlen : (([0, 2, 6, 8] : List Nat).filter
              (fun k => (jsGet b k).isNone)).length ≠ 0 := by
            rw [Ne, List.length_eq_zero]
            exact hcnil
          have hmem := getD_mem_of_length_pos
            (([0, 2, 6, 8] : List Nat).filter (fun k => (jsGet b k).isNone))
            (r % (([0, 2, 6, 8] : List Nat).filter
              (fun k => (jsGet b k).isNone)).length) 0
            (Nat.mod_lt _ (Nat.pos_of_ne_zero hlen))
          obtain ⟨hcor, hempty⟩ := List.mem_filter.mp hmem
          have hlt9 : ∀ x ∈ ([0, 2, 6, 8] : List Nat), x < 9 := by decide
          exact ⟨_, hlt9 _ hcor, Option.isNone_iff_eq_none.mp hempty,
            by simp [cpuMove, hw, hbk, h4f, hlen]⟩
    · have hpj := List.find?_some hbk
      have hj9 := List.mem_range.mp (List.mem_of_find?_eq_some hbk)
      exact ⟨j, hj9, ((winChk_iff b (opponent m) j).mp hpj).1,
        by simp [cpuMove, hw, hbk]⟩
  · have hpj := List.find?_some hw
    have hj9 := List.mem_range.mp (List.mem_of_find?_eq_some hw)
    exact ⟨j, hj9, ((winChk_iff b m j).mp hpj).1, by simp [cpuMove, hw]⟩

/-- C5 (confirmed). `cpuMove` applies the strict tier priority over the empty
cells of the 9-cell board: first the smallest-index empty cell completing a
win for `m` (even if a block exists), else the smallest-index empty cell
completing a win for the opponent, else the center 4, else some empty corner
of `{0,2,6,8}`, else some remaining empty cell. -/
theorem cpuMove_tier_priority (b : List Cell) (hb : b.length = 9) (m : Marker)
    (r : Nat) :
    ((∃ i, completesWin b i m) →
      ∃ i, completesWin b i m ∧ (∀ j, j < i → ¬ completesWin b j m) ∧
        cpuMove b m r = some i) ∧
    ((∀ i, i < 9 → ¬ completesWin b i m) →
      (∃ i, completesWin b i (opponent m)) →
      ∃ i, completesWin b i (opponent m) ∧
        (∀ j, j < i → ¬ completesWin b j (opponent m)) ∧
        cpuMove b m r = some i) ∧
    ((∀ i, i < 9 → ¬ completesWin b i m) →
      (∀ i, i < 9 → ¬ completesWin b i (opponent m)) →
      jsGet b 4 = none → cpuMove b m r = some 4) ∧
    ((∀ i, i < 9 → ¬ completesWin b i m) →
      (∀ i, i < 9 → ¬ completesWin b i (opponent m)) →
      jsGet b 4 ≠ none → (∃ i ∈ [0, 2, 6, 8], jsGet b i = none) →
      ∃ i, i ∈ ([0, 2, 6, 8] : List Nat) ∧ jsGet b i = none ∧
        cpuMove b m r = some i) ∧
    ((∀ i, i < 9 → ¬ completesWin b i m) →
      (∀ i, i < 9 → ¬ completesWin b i (opponent m)) →
      jsGet b 4 ≠ none → (∀ i ∈ ([0, 2, 6, 8] : List Nat), jsGet b i ≠ none) →
      (∃ i, i < 9 ∧ jsGet b i = none) →
      ∃ i, i < 9 ∧ jsGet b i = none ∧ cpuMove b m r = some i) := by
  refine ⟨?_, ?_, ?_, ?_, ?_⟩
  · rintro ⟨i, hi⟩
    obtain ⟨j, hf, hcw, hmin⟩ := find?_winChk_eq_some b m i hi
    exact ⟨j, hcw, hmin, by simp [cpuMove, hf]⟩
  · intro hnw
    rintro ⟨i, hi⟩
    have hw := find?_winChk_eq_none b m hnw
    obtain ⟨j, hf, hcw, hmin⟩ := find?_winChk_eq_some b (opponent m) i hi
    exact ⟨j, hcw, hmin, by simp [cpuMove, hw, hf]⟩
  · intro hnw hnb h4
    have hw := find?_winChk_eq_none b m hnw
    have hbk := find?_winChk_eq_none b (opponent m) hnb
    have h4t : (jsGet b 4).isNone = true := Option.isNone_iff_eq_none.mpr h4
    simp [cpuMove, hw, hbk, h4t]
  · intro hnw hnb h4
    rintro ⟨i, hicor, hie⟩
    have hw := find?_winChk_eq_none b m hnw
    have hbk := find?_winChk_eq_none b (opponent m) hnb
    have h4f : (jsGet b 4).isNone = false := by
      rcases hv : (jsGet b 4).isNone with _ | _
      · rfl
      · exact absurd (Option.isNone_iff_eq_none.mp hv) h4
    have hiC : i ∈ ([0, 2, 6, 8] : List Nat).filter
        (fun k => (jsGet b k).isNone) :=
      List.mem_filter.mpr ⟨hicor, by simp [hie]⟩
    have hlen : (([0, 2, 6, 8] : List Nat).filter
        (fun k => (jsGet b k).isNone)).length ≠ 0 := by
      rw [Ne, List.length_eq_zero]
      exact List.ne_nil_of_mem hiC
    have hmem := getD_mem_of_length_pos
      (([0, 2, 6, 8] : List Nat).filter (fun k => (jsGet b k).isNone))
      (r % (([0, 2, 6, 8] : List Nat).filter
        (fun k => (jsGet b k).isNone)).length) 0
      (Nat.mod_lt _ (Nat.pos_of_ne_zero hlen))
    obtain ⟨hcor, hempty⟩ := List.mem_filter.mp hmem
    exact ⟨_, hcor, Option.isNone_iff_eq_none.mp hempty,
      by simp [cpuMove, hw, hbk, h4f, hlen]⟩
  · intro hnw hnb h4 hcor
    rintro ⟨i, hi9, hie⟩
    have hw := find?_winChk_eq_none b m hnw
    have hbk := find?_winChk_eq_none b (opponent m) hnb
    have h4f : (jsGet b 4).isNone = false := by
      rcases hv : (jsGet b 4).isNone with _ | _
      · rfl
      · exact absurd (Option.isNone_iff_eq_none.mp hv) h4
    have hcnil : ([0, 2, 6, 8] : List Nat).filter
        (fun k => (jsGet b k).isNone) = [] := by
      rw [List.filter_eq_nil_iff]
      intro a ha hc
      exact hcor a ha (Option.isNone_iff_eq_none.mp hc)
    have hiE : i ∈ (List.range b.length).filter
        (fun k => (jsGet b k).isNone) :=
      List.mem_filter.mpr ⟨List.mem_range.mpr (by omega), by simp [hie]⟩
    have hlen : ((List.range b.length).filter
        (fun k => (jsGet b k).isNone)).length ≠ 0 := by
      rw [Ne, List.length_eq_zero]
      exact List.ne_nil_of_mem hiE
    have hmem := getD_mem_of_length_pos
      ((List.range b.length).filter (fun k => (jsGet b k).isNone))
      (r % ((List.range b.length).filter
        (fun k => (jsGet b k).isNone)).length) 0
      (Nat.mod_lt _ (Nat.pos_of_ne_zero hlen))
    obtain ⟨hrange, hempty⟩ := List.mem_filter.mp hmem
    refine ⟨_, by have := List.mem_range.mp hrange; omega,
      Option.isNone_iff_eq_none.mp hempty, ?_⟩
    simp [cpuMove, hw, hbk, h4f, hcnil, hlen]

theorem cpuMove_tier_priority_witness :
    ∃ i, completesWin [some Marker.O, some Marker.O, none, some Marker.X,
        some Marker.X, none, none, none, none] i Marker.O ∧
      (∀ j, j < i → ¬ completesWin [some Marker.O, some Marker.O, none,
        some Marker.X, some Marker.X, none, none, none, none] j Marker.O) ∧
      cpuMove [some Marker.O, some Marker.O, none, some Marker.X,
        some Marker.X, none, none, none, none] Marker.O 0 = some i :=
  (cpuMove_tier_priority [some Marker.O, some Marker.O, none, some Marker.X,
      some Marker.X, none, none, none, none] (by decide) Marker.O 0).1
    ⟨2, by decide⟩

/-- C6 (confirmed). On a 9-cell board, `cpuMove` returns `none` exactly when
the board is full: with at least one empty cell it returns an index, and with
all 9 cells occupied it returns `none`. -/
theorem cpuMove_none_iff_board_full (b : List Cell) (hb : b.length = 9)
    (m : Marker) (r : Nat) :
    cpuMove b m r = none ↔ ∀ i, i < 9 → jsGet b i ≠ none := by
  constructor
  · intro hnone i hi hempty
    obtain ⟨j, _, _, hsome⟩ := cpuMove_finds_empty b hb m r i hi hempty
    rw [hsome] at hnone
    exact Option.noConfusion hnone
  · intro hfull
    have hw : (List.range 9).find? (winChk b m) = none := by
      rw [List.find?_eq_none]
      intro x hx hc
      exact hfull x (List.mem_range.mp hx) ((winChk_iff b m x).mp hc).1
    have hbk : (List.range 9).find? (winChk b (opponent m)) = none := by
      rw [List.find?_eq_none]
      intro x hx hc
      exact hfull x (List.mem_range.mp hx)
        ((winChk_iff b (opponent m) x).mp hc).1
    have h4f : (jsGet b 4).isNone = false := by
      rcases hv : (jsGet b 4).isNone with _ | _
      · rfl
      · exact absurd (Option.isNone_iff_eq_none.mp hv) (hfull 4 (by norm_num))
    have hcnil : ([0, 2, 6, 8] : List Nat).filter
        (fun k => (jsGet b k).isNone) = [] := by
      rw [List.filter_eq_nil_iff]
      intro a ha hc
      have hlt9 : ∀ x ∈ ([0, 2, 6, 8] : List Nat), x < 9 := by decide
      exact hfull a (hlt9 a ha) (Option.isNone_iff_eq_none.mp hc)
    have henil : (List.range b.length).filter
        (fun k => (jsGet b k).isNone) = [] := by
      rw [List.filter_eq_nil_iff]
      intro a ha hc
      have := List.mem_range.mp ha
      exact hfull a (by omega) (Option.isNone_iff_eq_none.mp hc)
    simp [cpuMove, hw, hbk, h4f, hcnil, henil]

theorem cpuMove_none_iff_board_full_witness :
    cpuMove [some Marker.X, some Marker.O, some Marker.X, some Marker.X,
        some Marker.O, some Marker.O, some Marker.O, some Marker.X,
        some Marker.X] Marker.X 0 = none :=
  (cpuMove_none_iff_board_full [some Marker.X, some Marker.O, some Marker.X,
      some Marker.X, some Marker.O, some Marker.O, some Marker.O,
      some Marker.X, some Marker.X] (by decide) Marker.X 0).mpr (by decide)

/-- C10 (confirmed). For every 9-cell board with at least one empty cell and
either marker, `cpuMove` returns an index in `[0,8]` whose cell is empty on
the given board — never an occupied or out-of-range cell. -/
theorem cpuMove_returns_legal_empty (b : List Cell) (hb : b.length = 9)
    (m : Marker) (r : Nat) (h : ∃ i, i < 9 ∧ jsGet b i = none) :
    ∃ j, j < 9 ∧ jsGet b j = none ∧ cpuMove b m r = some j := by
  obtain ⟨i, hi, he⟩ := h
  exact cpuMove_finds_empty b hb m r i hi he

theorem cpuMove_returns_legal_empty_witness :
    ∃ j, j < 9 ∧ jsGet EMPTY_BOARD j = none ∧
      cpuMove EMPTY_BOARD Marker.X 0 = some j :=
  cpuMove_returns_legal_empty EMPTY_BOARD (by decide) Marker.X 0
    ⟨0, by decide⟩

/-- C7 (confirmed). From every session state, `resetGame` yields the all-empty
board, current marker X, and result InProgress (`winner = none`,
`winningLine = []`, `draw = false`), retaining the mode; it is a total
function, so it always succeeds. -/
theorem resetGame_spec (s : Session) :
    resetGame s
        = { mode := s.mode, board := EMPTY_BOARD, xIsNext := true,
            winner := none, winningLine := [], draw := false } ∧
    sessionResult (resetGame s) = GameResult.inProgress :=
  ⟨rfl, rfl⟩

/-- C8 (confirmed). A mode change (`m ≠ s.mode`) is equivalent to the spec
operation `reset(m)`: the `useEffect` on `[mode]` resets the game, leaving an
all-empty board, current marker X, and result InProgress with the new mode in
effect. -/
theorem setMode_equiv_reset (s : Session) (m : Mode) (h : m ≠ s.mode) :
    setModeOp s m = resetWithMode s m ∧
    resetWithMode s m
        = { mode := m, board := EMPTY_BOARD, xIsNext := true,
            winner := none, winningLine := [], draw := false } := by
  refine ⟨?_, rfl⟩
  simp [setModeOp, h]

theorem setMode_equiv_reset_witness :
    setModeOp (freshSession Mode.twoPlayer) Mode.vsComputer
        = resetWithMode (freshSession Mode.twoPlayer) Mode.vsComputer :=
  (setMode_equiv_reset (freshSession Mode.twoPlayer) Mode.vsComputer
    (by decide)).1

/-- C9 (confirmed). From a fresh TwoPlayer session, the click sequence
`0, 4, 1, 5, 2` leaves X on cells 0, 1, 2 (and O on 4, 5), the result is
Win(X, [0,1,2]), and a further `play 3` changes no session state. -/
theorem winning_scenario :
    (playSeq (freshSession Mode.twoPlayer) [0, 4, 1, 5, 2]).board
        = [some Marker.X, some Marker.X, some Marker.X, none, some Marker.O,
           some Marker.O, none, none, none] ∧
    sessionResult (playSeq (freshSession Mode.twoPlayer) [0, 4, 1, 5, 2])
        = GameResult.win Marker.X [0, 1, 2] ∧
    play (playSeq (freshSession Mode.twoPlayer) [0, 4, 1, 5, 2]) 3
        = playSeq (freshSession Mode.twoPlayer) [0, 4, 1, 5, 2] := by
  decide

/-- C1 (counterexample). The claim "play is rejected with no state change
whenever the index is out of `[0,8]` or it is the computer's turn" is false:
from the fresh TwoPlayer session (result InProgress), `play 9` extends the
board and flips the turn; and in VsComputer mode with current marker O (state
reached by the human playing cell 0), `play 1` is accepted and places an O. -/
theorem play_rejects_counterexample :
    play (freshSession Mode.twoPlayer) 9 ≠ freshSession Mode.twoPlayer ∧
    (play (freshSession Mode.twoPlayer) 9).board
        = EMPTY_BOARD ++ [some Marker.X] ∧
    (play (freshSession Mode.vsComputer) 0).mode = Mode.vsComputer ∧
    currentMarker (play (freshSession Mode.vsComputer) 0) = Marker.O ∧
    sessionResult (play (freshSession Mode.vsComputer) 0)
        = GameResult.inProgress ∧
    play (play (freshSession Mode.vsComputer) 0) 1
        ≠ play (freshSession Mode.vsComputer) 0 ∧
    jsGet (play (play (freshSession Mode.vsComputer) 0) 1).board 1
        = some Marker.O := by
  decide

/-- C1 (amended, confirmed). `play index` is rejected with no change to the
board or any other session state whenever the game result is not InProgress
(a winner is set or the game is drawn) or the cell read at `index` is
occupied; `play` itself rejects neither out-of-range indices nor moves during
the computer's turn. -/
theorem play_noop_of_occupied_or_over (s : Session) (index : Nat)
    (h : s.winner.isSome = true ∨ s.draw = true
        ∨ (jsGet s.board index).isSome = true) :
    play s index = s := by
  rcases h with h | h | h <;> simp [play, rejected, h]

theorem play_noop_of_occupied_or_over_witness :
    play (play (freshSession Mode.twoPlayer) 0) 0
        = play (freshSession Mode.twoPlayer) 0 :=
  play_noop_of_occupied_or_over (play (freshSession Mode.twoPlayer) 0) 0
    (Or.inr (Or.inr (by decide)))

/-- C4 (counterexample). The claim "the current marker flips iff the
recomputed result is still InProgress" is false: in the winning scenario the
move `play 2` produces Win(X, ·) and still flips the turn, from X
(`xIsNext = true`) to O (`xIsNext = false`). -/
theorem xIsNext_flips_after_win_counterexample :
    (playSeq (freshSession Mode.twoPlayer) [0, 4, 1, 5]).xIsNext = true ∧
    (playSeq (freshSession Mode.twoPlayer) [0, 4, 1, 5, 2]).winner
        = some Marker.X ∧
    (playSeq (freshSession Mode.twoPlayer) [0, 4, 1, 5, 2]).xIsNext = false := by
  decide

/-- C4 (amended, confirmed). For every accepted `play index`, the current
marker is placed at `index` and the game result is recomputed from the
resulting board; the current marker flips to the other value unconditionally,
including after a move that produces Win or Draw (it is reset to X only by
`resetGame`). -/
theorem play_accept_places_and_flips (s : Session) (index : Nat)
    (h : rejected s index = false) :
    (play s index).board = jsSet s.board index (some (currentMarker s)) ∧
    sessionResult (play s index)
        = evaluate (jsSet s.board index (some (currentMarker s))) ∧
    (play s index).xIsNext = !s.xIsNext := by
  have hp : play s index = detectEffect (handlePlay s index) := by
    simp [play, h]
  have hb : (handlePlay s index).board
      = jsSet s.board index (some (currentMarker s)) := by
    simp [handlePlay, h]
  have hx : (handlePlay s index).xIsNext = !s.xIsNext := by
    simp [handlePlay, h]
  refine ⟨?_, ?_, ?_⟩ <;> rw [hp]
  · rw [detectEffect_board, hb]
  · rw [sessionResult_detectEffect, hb]
  · rw [detectEffect_xIsNext, hx]

theorem play_accept_places_and_flips_witness :
    (play (freshSession Mode.twoPlayer) 0).board
        = jsSet (freshSession Mode.twoPlayer).board 0
            (some (currentMarker (freshSession Mode.twoPlayer))) ∧
    sessionResult (play (freshSession Mode.twoPlayer) 0)
        = evaluate (jsSet (freshSession Mode.twoPlayer).board 0
            (some (currentMarker (freshSession Mode.twoPlayer)))) ∧
    (play (freshSession Mode.twoPlayer) 0).xIsNext
        = !(freshSession Mode.twoPlayer).xIsNext :=
  play_accept_places_and_flips (freshSession Mode.twoPlayer) 0 (by decide)

/-- C3 (code bug). The computer-move effect installs no cleanup and tags no
generation, so the pending `setTimeout` survives a reset: after the human
plays cell 0 in VsComputer mode, the effect schedules the move 4; if
`resetGame` runs before the 400 ms timer fires, the stale callback still
passes the `handlePlay` guard against its captured pre-reset closure and
overwrites the freshly reset board with the pre-reset board plus an O at
cell 4 — not the no-op the claim requires. -/
theorem stale_cpu_callback_corrupts_reset_board :
    scheduleCpuMove (play (freshSession Mode.vsComputer) 0) 0
        = some { board := [some Marker.X, none, none, none, none, none, none,
                           none, none],
                 xIsNext := false, winner := none, draw := false, move := 4 } ∧
    fireStale (resetGame (play (freshSession Mode.vsComputer) 0))
        { board := [some Marker.X, none, none, none, none, none, none, none,
                    none],
          xIsNext := false, winner := none, draw := false, move := 4 }
        ≠ resetGame (play (freshSession Mode.vsComputer) 0) ∧
    (fireStale (resetGame (play (freshSession Mode.vsComputer) 0))
        { board := [some Marker.X, none, none, none, none, none, none, none,
                    none],
          xIsNext := false, winner := none, draw := false, move := 4 }).board
        = [some Marker.X, none, none, none, some Marker.O, none, none, none,
           none] := by
  decide

end TicTacToe
